import Mathlib

/-!
Shallow embedding of the real-time message channel of the WebChat frontend,
translated from `src/frontend/src/composables/useSocket.ts`.

The composable keeps a list of received messages, a connection flag and an
optional "message observed" callback, and reacts to socket events
(`connect`, `disconnect`, `receiveMessage`) while offering outbound actions
(`sendMessage`, `joinConversation`, `leaveConversation`,
`setOnMessageCallback`).

Every operation is modelled as a pure function from the channel state to a
new state together with the ordered list of observable side effects
(list append, callback invocation, socket emit, console log) the source
performs, so that ordering and multiplicity of effects are provable.
-/

/-- A chat message as delivered on the socket.  The TypeScript `Message`
type declares `id: string`, but inbound payloads are not validated, so at
runtime the `id` field may be absent (`undefined`); we model the runtime
value as `Option String` with `none` for a missing field.  JavaScript
`===` on two absent fields yields `true`, which `Option` equality mirrors
(`none == none` is `true`).  The timestamp is opaque to the client. -/
structure Message where
  id : Option String
  «from» : String
  «to» : String
  content : String
  timestamp : Int
deriving DecidableEq

/-- Outbound socket events emitted by the composable (`socket.emit`). -/
inductive OutEvent where
  | sendMessage («from» «to» content : String)
  | joinConversation (conversationId : String)
  | leaveConversation (conversationId : String)
deriving DecidableEq

/-- Observable side effects of one operation, listed in the order the
source performs them. -/
inductive Effect where
  | append (m : Message)
  | invoke (cb : Nat) (m : Message)
  | emit (e : OutEvent)
  | log (text : String)
deriving DecidableEq

/-- The local state owned by one `useSocket()` channel: the `messages` ref,
the `isConnected` ref, and the single mutable `onMessageCallback` slot.
Callbacks are identified by a `Nat` label; invoking one is recorded as an
`Effect.invoke` effect. -/
structure ChannelState where
  messages : List Message
  isConnected : Bool
  onMessageCallback : Option Nat
deriving DecidableEq

/-- Initial state: `messages = ref([])`, `isConnected = ref(false)`,
`onMessageCallback = null`. -/
def initState : ChannelState :=
  { messages := [], isConnected := false, onMessageCallback := none }

/-- Handler of the transport `connect` event: log, then set the flag. -/
def handleConnect (s : ChannelState) : ChannelState × List Effect :=
  ({ s with isConnected := true }, [Effect.log "Connected to server"])

/-- Handler of the transport `disconnect` event: log, then clear the flag. -/
def handleDisconnect (s : ChannelState) : ChannelState × List Effect :=
  ({ s with isConnected := false }, [Effect.log "Disconnected from server"])

/-- Handler of the inbound `receiveMessage` event.  Mirrors the source:
log the message; scan the list for an entry whose `id` compares `===`
equal to the payload `id`; push the payload only when the scan found
nothing; finally invoke `onMessageCallback` (unconditionally) when one is
registered. -/
def handleReceiveMessage (s : ChannelState) (message : Message) :
    ChannelState × List Effect :=
  let ex := s.messages.any (fun msg => msg.id == message.id)
  let newMessages := if ex then s.messages else s.messages ++ [message]
  let appendActions := if ex then ([] : List Effect) else [Effect.append message]
  let callbackActions :=
    match s.onMessageCallback with
    | some cb => [Effect.invoke cb message]
    | none => ([] : List Effect)
  ({ s with messages := newMessages },
   Effect.log "Received message:" :: (appendActions ++ callbackActions))

/-- `setOnMessageCallback(callback)`: overwrite the single callback slot. -/
def setOnMessageCallback (s : ChannelState) (cb : Nat) :
    ChannelState × List Effect :=
  ({ s with onMessageCallback := some cb }, [])

/-- `joinConversation(conversationId)`: emit the room-membership event,
then log; no state change. -/
def joinConversation (s : ChannelState) (conversationId : String) :
    ChannelState × List Effect :=
  (s, [Effect.emit (OutEvent.joinConversation conversationId),
       Effect.log ("Joined conversation room: " ++ conversationId)])

/-- `leaveConversation(conversationId)`: emit the room-membership event,
then log; no state change. -/
def leaveConversation (s : ChannelState) (conversationId : String) :
    ChannelState × List Effect :=
  (s, [Effect.emit (OutEvent.leaveConversation conversationId),
       Effect.log ("Left conversation room: " ++ conversationId)])

/-- JavaScript `String.prototype.trim`: strip leading and trailing
whitespace characters. -/
def jsTrim (s : String) : String :=
  ⟨((s.data.dropWhile Char.isWhitespace).reverse.dropWhile
      Char.isWhitespace).reverse⟩

/-- `sendMessage(from, to, content)`: return without emitting when the
trimmed content is empty (`!content.trim()`); otherwise emit one outbound
`sendMessage` event carrying the original arguments verbatim. -/
def sendMessage (s : ChannelState) («from» «to» content : String) :
    ChannelState × List Effect :=
  if jsTrim content = "" then (s, [])
  else (s, [Effect.emit (OutEvent.sendMessage «from» «to» content)])

/-- The events a channel can process: the three socket callbacks plus the
four exported operations. -/
inductive Event where
  | connect
  | disconnect
  | receiveMessage (m : Message)
  | sendMessage («from» «to» content : String)
  | joinConversation (conversationId : String)
  | leaveConversation (conversationId : String)
  | setOnMessageCallback (cb : Nat)
deriving DecidableEq

/-- Dispatch one event to its handler. -/
def step (s : ChannelState) : Event → ChannelState × List Effect
  | Event.connect => handleConnect s
  | Event.disconnect => handleDisconnect s
  | Event.receiveMessage m => handleReceiveMessage s m
  | Event.sendMessage f t c => sendMessage s f t c
  | Event.joinConversation cid => joinConversation s cid
  | Event.leaveConversation cid => leaveConversation s cid
  | Event.setOnMessageCallback cb => setOnMessageCallback s cb

/-- Process a sequence of events, accumulating the effect trace. -/
def runTrace : ChannelState → List Event → ChannelState × List Effect
  | s, [] => (s, [])
  | s, e :: es =>
      ((runTrace (step s e).1 es).1,
       (step s e).2 ++ (runTrace (step s e).1 es).2)

/-- Final state after a sequence of events. -/
def run (s : ChannelState) (es : List Event) : ChannelState :=
  (runTrace s es).1

/-- Final state after a sequence of events from the initial state. -/
def runEvents (es : List Event) : ChannelState :=
  run initState es

/-- Recognize a callback-invocation effect. -/
def isInvoke : Effect → Bool
  | Effect.invoke _ _ => true
  | _ => false

/-- Recognize a socket-emit effect. -/
def isEmit : Effect → Bool
  | Effect.emit _ => true
  | _ => false

/-- The concrete message of the redelivery scenario in the spec. -/
def m1 : Message :=
  { id := some "m1", «from» := "A", «to» := "B", content := "hi",
    timestamp := 0 }

/-- The redelivery scenario: register an observer, deliver `m1`, deliver
the identical event again. -/
def c2events : List Event :=
  [Event.setOnMessageCallback 0, Event.receiveMessage m1,
   Event.receiveMessage m1]

/-- An id-less payload (`id` field missing from the inbound object). -/
def mNoId : Message :=
  { id := none, «from» := "A", «to» := "B", content := "x", timestamp := 0 }

/-- A second, distinct id-less payload. -/
def mNoId2 : Message :=
  { id := none, «from» := "A", «to» := "B", content := "y", timestamp := 0 }

/-- A state holding one message, with no observer registered. -/
def sampleState : ChannelState :=
  { messages := [m1], isConnected := false, onMessageCallback := none }

/-- A state with an empty list and observer `0` registered. -/
def sampleStateCb : ChannelState :=
  { messages := [], isConnected := false, onMessageCallback := some 0 }

/-- C4: for every `from`, `to` and `content`, `sendMessage` leaves the
state (hence the message list) unchanged, and its effect trace is empty
when the trimmed content is empty, and exactly one outbound `sendMessage`
emit carrying the payload otherwise. -/
theorem sendMessage_trim_guard (s : ChannelState) (f t c : String) :
    (sendMessage s f t c).1 = s ∧
    (sendMessage s f t c).2 =
      (if jsTrim c = "" then []
       else [Effect.emit (OutEvent.sendMessage f t c)]) := by
  unfold sendMessage
  split <;> simp_all

/-- C2 (counterexample): in the redelivery scenario the list indeed has
length 1, but the observer callback is invoked twice, not once — the
source calls the callback outside the duplicate check, so the claim
"observer fires once" is false. -/
theorem redeliver_observer_once_false :
    ¬ ((runTrace initState c2events).1.messages.length = 1 ∧
       (runTrace initState c2events).2.countP isInvoke = 1) := by
  decide

/-- C2 (amended): deliver `m1` and then redeliver the identical event with
an observer registered — the list length is 1 and the observer has fired
exactly twice, once per delivery, because the callback invocation is not
guarded by the duplicate check. -/
theorem redeliver_list_one_observer_twice :
    (runTrace initState c2events).1.messages.length = 1 ∧
    (runTrace initState c2events).2.countP isInvoke = 2 := by
  decide

/-- C3: receiving a message whose `id` is not yet in the list, with an
observer registered, appends the message at the end of the list and
produces the effect trace log–append–invoke: the observer is invoked
exactly once, after the append. -/
theorem new_id_append_then_invoke (s : ChannelState) (m : Message) (cb : Nat)
    (h1 : s.messages.any (fun msg => msg.id == m.id) = false)
    (h2 : s.onMessageCallback = some cb) :
    (handleReceiveMessage s m).1.messages = s.messages ++ [m] ∧
    (handleReceiveMessage s m).2 =
      [Effect.log "Received message:", Effect.append m, Effect.invoke cb m] := by
  simp [handleReceiveMessage, h1, h2]

/-- C3 witness: the new-id reception theorem at the empty list with
observer 0 registered and message `m1`. -/
theorem new_id_append_then_invoke_witness :
    (handleReceiveMessage sampleStateCb m1).1.messages =
      sampleStateCb.messages ++ [m1] ∧
    (handleReceiveMessage sampleStateCb m1).2 =
      [Effect.log "Received message:", Effect.append m1,
       Effect.invoke 0 m1] :=
  new_id_append_then_invoke sampleStateCb m1 0 (by decide) (by decide)

/-- C7: `joinConversation` and `leaveConversation` leave the state (message
list, connection flag, registered observer) unchanged, and each produces
exactly one socket emit — the room-membership event — followed by one log
effect and nothing else. -/
theorem join_leave_advisory (s : ChannelState) (conversationId : String) :
    (joinConversation s conversationId).1 = s ∧
    (leaveConversation s conversationId).1 = s ∧
    (joinConversation s conversationId).2.countP isEmit = 1 ∧
    (leaveConversation s conversationId).2.countP isEmit = 1 ∧
    (joinConversation s conversationId).2 =
      [Effect.emit (OutEvent.joinConversation conversationId),
       Effect.log ("Joined conversation room: " ++ conversationId)] ∧
    (leaveConversation s conversationId).2 =
      [Effect.emit (OutEvent.leaveConversation conversationId),
       Effect.log ("Left conversation room: " ++ conversationId)] := by
  simp [joinConversation, leaveConversation, isEmit, List.countP_cons]

/-- C10: when the trimmed content is non-empty, `sendMessage` emits the
original `content` argument verbatim in the outbound payload — trimming is
used only for the emptiness test. -/
theorem send_content_verbatim (s : ChannelState) (f t c : String)
    (h : jsTrim c ≠ "") :
    (sendMessage s f t c).2 = [Effect.emit (OutEvent.sendMessage f t c)] := by
  simp [sendMessage, h]

/-- C10 witness: sending content with leading and trailing spaces emits
that exact string, whitespace preserved. -/
theorem send_content_verbatim_witness :
    (sendMessage initState "A" "B" "  hi  ").2 =
      [Effect.emit (OutEvent.sendMessage "A" "B" "  hi  ")] :=
  send_content_verbatim initState "A" "B" "  hi  " (by decide)

/-- C8 (counterexample): repeated delivery of the same id-less payload does
not yield multiple list entries — the second delivery is suppressed,
because JavaScript compares the two absent `id` fields equal
(`undefined === undefined`), so the list never reaches length 2. -/
theorem idless_redelivery_no_duplicates :
    ¬ (2 ≤ (runEvents [Event.receiveMessage mNoId,
                       Event.receiveMessage mNoId]).messages.length) := by
  decide

theorem run_nil (s : ChannelState) : run s [] = s := rfl

theorem run_cons (s : ChannelState) (e : Event) (es : List Event) :
    run s (e :: es) = run (step s e).1 es := rfl

theorem any_id_eq_true (l : List Message) (i : Option String) :
    (l.any (fun msg => msg.id == i) = true) ↔ i ∈ l.map Message.id := by
  simp only [List.any_eq_true, beq_iff_eq, List.mem_map]

theorem handleReceiveMessage_messages (s : ChannelState) (m : Message) :
    (handleReceiveMessage s m).1.messages =
      if m.id ∈ s.messages.map Message.id then s.messages
      else s.messages ++ [m] := by
  by_cases h : m.id ∈ s.messages.map Message.id
  · have hx : s.messages.any (fun msg => msg.id == m.id) = true :=
      (any_id_eq_true s.messages m.id).mpr h
    simp [handleReceiveMessage, hx, h]
  · have hx : s.messages.any (fun msg => msg.id == m.id) = false := by
      rw [Bool.eq_false_iff]
      intro hc
      exact h ((any_id_eq_true s.messages m.id).mp hc)
    simp [handleReceiveMessage, hx, h]

theorem run_receive_countP (ms : List Message) : ∀ (s : ChannelState)
    (i : Option String),
    s.messages.countP (fun msg => msg.id == i)
      = (if i ∈ s.messages.map Message.id then 1 else 0) →
    (run s (ms.map Event.receiveMessage)).messages.countP
        (fun msg => msg.id == i)
      = if (i ∈ s.messages.map Message.id ∨ i ∈ ms.map Message.id)
        then 1 else 0 := by
  induction ms with
  | nil =>
    intro s i h
    simpa [run, runTrace] using h
  | cons m ms ih =>
    intro s i h
    rw [List.map_cons, run_cons]
    show (run (handleReceiveMessage s m).1
        (ms.map Event.receiveMessage)).messages.countP _ = _
    by_cases hm : m.id ∈ s.messages.map Message.id
    · have hs' : (handleReceiveMessage s m).1.messages = s.messages := by
        rw [handleReceiveMessage_messages, if_pos hm]
      have ihap := ih (handleReceiveMessage s m).1 i (by rw [hs']; exact h)
      rw [hs'] at ihap
      rw [ihap]
      have hiff : (i ∈ s.messages.map Message.id ∨ i ∈ ms.map Message.id) ↔
          (i ∈ s.messages.map Message.id ∨ i ∈ (m :: ms).map Message.id) := by
        simp only [List.map_cons, List.mem_cons]
        constructor
        · rintro (hs | hms)
          · exact Or.inl hs
          · exact Or.inr (Or.inr hms)
        · rintro (hs | hi | hms)
          · exact Or.inl hs
          · exact Or.inl (hi ▸ hm)
          · exact Or.inr hms
      rw [if_congr hiff rfl rfl]
    · have hs' : (handleReceiveMessage s m).1.messages
          = s.messages ++ [m] := by
        rw [handleReceiveMessage_messages, if_neg hm]
      have hnew : (s.messages ++ [m]).countP (fun msg => msg.id == i)
          = if i ∈ (s.messages ++ [m]).map Message.id then 1 else 0 := by
        by_cases hi : m.id = i
        · have hins : i ∉ s.messages.map Message.id := hi ▸ hm
          have hcnt : (s.messages ++ [m]).countP (fun msg => msg.id == i)
              = 1 := by
            rw [List.countP_append, h, if_neg hins]
            simp [List.countP_cons, hi]
          have hmem2 : i ∈ (s.messages ++ [m]).map Message.id := by
            simp [List.map_append, List.mem_append, hi]
          rw [hcnt, if_pos hmem2]
        · have hbeq : ((m.id == i) = false) := by
            rw [Bool.eq_false_iff]
            intro hc
            exact hi (beq_iff_eq.mp hc)
          have hcnt : (s.messages ++ [m]).countP (fun msg => msg.id == i)
              = s.messages.countP (fun msg => msg.id == i) := by
            simp [List.countP_append, List.countP_cons, hbeq]
          have hmemiff : (i ∈ (s.messages ++ [m]).map Message.id) ↔
              i ∈ s.messages.map Message.id := by
            simp only [List.map_append, List.mem_append, List.map_cons,
              List.map_nil, List.mem_singleton]
            constructor
            · rintro (hc | hc)
              · exact hc
              · exact absurd hc.symm hi
            · exact Or.inl
          rw [hcnt, h, if_congr hmemiff rfl rfl]
      have ihap := ih (handleReceiveMessage s m).1 i (by rw [hs']; exact hnew)
      rw [hs'] at ihap
      rw [ihap]
      have hiff : (i ∈ (s.messages ++ [m]).map Message.id
            ∨ i ∈ ms.map Message.id) ↔
          (i ∈ s.messages.map Message.id ∨ i ∈ (m :: ms).map Message.id) := by
        simp only [List.map_append, List.mem_append, List.map_cons,
          List.mem_cons, List.map_nil, List.mem_singleton]
        tauto
      rw [if_congr hiff rfl rfl]

/-- C1: for every sequence of inbound receiveMessage deliveries, the local
list ends up with exactly one entry whose id equals a delivered id and no
entry for an undelivered id, no matter how often each id was delivered. -/
theorem receive_idempotent_ingestion (ms : List Message) (i : Option String) :
    (runEvents (ms.map Event.receiveMessage)).messages.countP
        (fun msg => msg.id == i)
      = if i ∈ ms.map Message.id then 1 else 0 := by
  have h := run_receive_countP ms initState i (by simp [initState])
  simpa [initState, runEvents] using h

theorem idless_absorbed (ms : List Message) : ∀ (s : ChannelState),
    (∀ m ∈ ms, m.id = none) →
    (none : Option String) ∈ s.messages.map Message.id →
    (run s (ms.map Event.receiveMessage)).messages = s.messages := by
  induction ms with
  | nil => intro s _ _; rfl
  | cons m ms ih =>
    intro s hall hnone
    have hm : m.id = none := hall m (List.mem_cons_self m ms)
    have hmem : m.id ∈ s.messages.map Message.id := hm ▸ hnone
    have hs' : (handleReceiveMessage s m).1.messages = s.messages := by
      rw [handleReceiveMessage_messages, if_pos hmem]
    rw [List.map_cons, run_cons]
    show (run (handleReceiveMessage s m).1
        (ms.map Event.receiveMessage)).messages = s.messages
    have := ih (handleReceiveMessage s m).1
      (fun x hx => hall x (List.mem_cons_of_mem m hx)) (by rw [hs']; exact hnone)
    rw [this, hs']

/-- C8 (amended): inbound payloads are not validated, but a missing id
does not produce duplicate entries — all id-less payloads compare equal on
the missing field, so the first id-less message is stored and every later
id-less payload, identical or distinct, is silently discarded: the list
ends up with just the first payload. -/
theorem idless_payloads_collapse (ms : List Message)
    (h : ∀ m ∈ ms, m.id = none) :
    (runEvents (ms.map Event.receiveMessage)).messages = ms.take 1 := by
  cases ms with
  | nil => rfl
  | cons m rest =>
    have hm : m.id = none := h m (List.mem_cons_self m rest)
    have h0 : runEvents ((m :: rest).map Event.receiveMessage)
        = run (handleReceiveMessage initState m).1
            (rest.map Event.receiveMessage) := rfl
    have hs1 : (handleReceiveMessage initState m).1.messages = [m] := by
      rw [handleReceiveMessage_messages]
      simp [initState]
    rw [h0, idless_absorbed rest (handleReceiveMessage initState m).1
      (fun x hx => h x (List.mem_cons_of_mem m hx))
      (by rw [hs1]; simp [hm]), hs1]
    rfl

/-- C8 witness: delivering two distinct id-less payloads leaves only the
first in the list — the second is swallowed by the duplicate check. -/
theorem idless_payloads_collapse_witness :
    (runEvents ([mNoId, mNoId2].map Event.receiveMessage)).messages
      = [mNoId, mNoId2].take 1 :=
  idless_payloads_collapse [mNoId, mNoId2] (by decide)

theorem step_messages_extend (s : ChannelState) (e : Event) :
    ∃ t, (step s e).1.messages = s.messages ++ t := by
  cases e with
  | connect => exact ⟨[], by simp [step, handleConnect]⟩
  | disconnect => exact ⟨[], by simp [step, handleDisconnect]⟩
  | receiveMessage m =>
    by_cases h : m.id ∈ s.messages.map Message.id
    · exact ⟨[], by simp [step, handleReceiveMessage_messages, h]⟩
    · exact ⟨[m], by simp [step, handleReceiveMessage_messages, h]⟩
  | sendMessage f t c =>
    by_cases h : jsTrim c = ""
    · exact ⟨[], by simp [step, sendMessage, h]⟩
    · exact ⟨[], by simp [step, sendMessage, h]⟩
  | joinConversation cid => exact ⟨[], by simp [step, joinConversation]⟩
  | leaveConversation cid => exact ⟨[], by simp [step, leaveConversation]⟩
  | setOnMessageCallback cb => exact ⟨[], by simp [step, setOnMessageCallback]⟩

theorem run_messages_extend (es : List Event) : ∀ (s : ChannelState),
    ∃ t, (run s es).messages = s.messages ++ t := by
  induction es with
  | nil => intro s; exact ⟨[], by simp [run, runTrace]⟩
  | cons e es ih =>
    intro s
    obtain ⟨t1, h1⟩ := step_messages_extend s e
    obtain ⟨t2, h2⟩ := ih (step s e).1
    refine ⟨t1 ++ t2, ?_⟩
    rw [run_cons, h2, h1, List.append_assoc]

/-- C9: the message list is append-only — after any sequence of channel
operations and transport events, the prior list is an unchanged initial
segment of the new list: new entries are only ever added at the end, and
every entry present before is still present at the same position with the
same field values. -/
theorem messages_append_only (s : ChannelState) (es : List Event) :
    (∃ t, (run s es).messages = s.messages ++ t) ∧
    (∀ i, i < s.messages.length →
      (run s es).messages[i]? = s.messages[i]?) := by
  refine ⟨run_messages_extend es s, ?_⟩
  intro i hi
  obtain ⟨t, ht⟩ := run_messages_extend es s
  rw [ht, List.getElem?_append, if_pos hi]

/-- C9 witness: from a state holding one message, receiving a new message
leaves the stored entry in place at index 0. -/
theorem messages_append_only_witness :
    (run sampleState [Event.receiveMessage m1]).messages[0]? =
      sampleState.messages[0]? :=
  (messages_append_only sampleState [Event.receiveMessage m1]).2 0 (by decide)

theorem invoke_mem_receive (s : ChannelState) (m : Message) (cb : Nat)
    (m2 : Message) :
    Effect.invoke cb m2 ∈ (handleReceiveMessage s m).2 ↔
      (s.onMessageCallback = some cb ∧ m2 = m) := by
  cases h : s.onMessageCallback with
  | none =>
    by_cases hx : s.messages.any (fun msg => msg.id == m.id) <;>
      simp [handleReceiveMessage, h, hx]
  | some c =>
    by_cases hx : s.messages.any (fun msg => msg.id == m.id)
    all_goals
      simp [handleReceiveMessage, h, hx, And.comm]
      intro _
      exact ⟨fun hh => hh.symm, fun hh => hh.symm⟩

theorem step_invoke_not_mem (f : Nat) (s : ChannelState) (e : Event)
    (hcb : s.onMessageCallback ≠ some f)
    (he : e ≠ Event.setOnMessageCallback f) :
    (∀ m2, Effect.invoke f m2 ∉ (step s e).2) ∧
      (step s e).1.onMessageCallback ≠ some f := by
  cases e with
  | connect => exact ⟨by simp [step, handleConnect], by simpa [step, handleConnect] using hcb⟩
  | disconnect => exact ⟨by simp [step, handleDisconnect], by simpa [step, handleDisconnect] using hcb⟩
  | receiveMessage m =>
    constructor
    · intro m2 hmem
      exact hcb ((invoke_mem_receive s m f m2).mp hmem).1
    · simpa [step, handleReceiveMessage] using hcb
  | sendMessage fr t c =>
    constructor
    · intro m2
      by_cases h : jsTrim c = "" <;> simp [step, sendMessage, h]
    · by_cases h : jsTrim c = "" <;> simpa [step, sendMessage, h] using hcb
  | joinConversation cid => exact ⟨by simp [step, joinConversation], by simpa [step, joinConversation] using hcb⟩
  | leaveConversation cid => exact ⟨by simp [step, leaveConversation], by simpa [step, leaveConversation] using hcb⟩
  | setOnMessageCallback cb =>
    have hne : cb ≠ f := by
      intro hc
      exact he (by rw [hc])
    exact ⟨by simp [step, setOnMessageCallback],
      by simp [step, setOnMessageCallback, hne]⟩

theorem runTrace_invoke_not_mem (f : Nat) (es : List Event) :
    ∀ (s : ChannelState),
    s.onMessageCallback ≠ some f →
    Event.setOnMessageCallback f ∉ es →
    ∀ m2, Effect.invoke f m2 ∉ (runTrace s es).2 := by
  induction es with
  | nil => intro s _ _ m2; simp [runTrace]
  | cons e es ih =>
    intro s hcb hes m2
    have he : e ≠ Event.setOnMessageCallback f := by
      intro hc
      exact hes (hc ▸ List.mem_cons_self e es)
    have hstep := step_invoke_not_mem f s e hcb he
    have htail := ih (step s e).1 hstep.2
      (fun hc => hes (List.mem_cons_of_mem e hc)) m2
    show Effect.invoke f m2 ∉ (step s e).2 ++ (runTrace (step s e).1 es).2
    rw [List.mem_append]
    rintro (hc | hc)
    · exact hstep.1 m2 hc
    · exact htail hc

/-- C6: the observer slot keeps at most one callback — after registering f
and then g, the slot holds g; ingesting a message invokes g and not f; and
f is never invoked again on any later event sequence that does not
re-register it. -/
theorem observer_single_slot (s : ChannelState) (f g : Nat) (m : Message)
    (hfg : f ≠ g) :
    ((setOnMessageCallback (setOnMessageCallback s f).1 g).1.onMessageCallback
        = some g) ∧
    (Effect.invoke g m ∈ (handleReceiveMessage
        (setOnMessageCallback (setOnMessageCallback s f).1 g).1 m).2) ∧
    (Effect.invoke f m ∉ (handleReceiveMessage
        (setOnMessageCallback (setOnMessageCallback s f).1 g).1 m).2) ∧
    (∀ es m2, Event.setOnMessageCallback f ∉ es →
      Effect.invoke f m2 ∉ (runTrace
        (setOnMessageCallback (setOnMessageCallback s f).1 g).1 es).2) := by
  have hslot : (setOnMessageCallback (setOnMessageCallback s f).1
      g).1.onMessageCallback = some g := rfl
  refine ⟨hslot, ?_, ?_, ?_⟩
  · exact (invoke_mem_receive _ m g m).mpr ⟨hslot, rfl⟩
  · intro hc
    have := ((invoke_mem_receive _ m f m).mp hc).1
    rw [hslot] at this
    exact hfg (Option.some.inj this).symm
  · intro es m2 hes
    apply runTrace_invoke_not_mem f es _ ?_ hes m2
    rw [hslot]
    intro hc
    exact hfg (Option.some.inj hc).symm

/-- C6 witness: after registering callback 0 and then callback 1,
processing a receiveMessage event never invokes callback 0. -/
theorem observer_single_slot_witness :
    Effect.invoke 0 m1 ∉ (runTrace
      (setOnMessageCallback (setOnMessageCallback initState 0).1 1).1
      [Event.receiveMessage m1]).2 :=
  (observer_single_slot initState 0 1 m1 (by decide)).2.2.2
    [Event.receiveMessage m1] m1 (by decide)

theorem split_cons_of_ne (e : Event) (es : List Event)
    (he : e ≠ Event.connect) :
    (∃ es1 es2, e :: es = es1 ++ Event.connect :: es2 ∧
        Event.disconnect ∉ es2) ↔
    (∃ es1 es2, es = es1 ++ Event.connect :: es2 ∧
        Event.disconnect ∉ es2) := by
  constructor
  · rintro ⟨es1, es2, heq, hd⟩
    cases es1 with
    | nil =>
      rw [List.nil_append] at heq
      exact absurd (List.cons.inj heq).1 he
    | cons a es1 =>
      rw [List.cons_append] at heq
      exact ⟨es1, es2, (List.cons.inj heq).2, hd⟩
  · rintro ⟨es1, es2, heq, hd⟩
    exact ⟨e :: es1, es2, by rw [heq, List.cons_append], hd⟩

theorem split_cons_connect (es : List Event) :
    (∃ es1 es2, Event.connect :: es = es1 ++ Event.connect :: es2 ∧
        Event.disconnect ∉ es2) ↔
    (Event.disconnect ∉ es ∨
      ∃ es1 es2, es = es1 ++ Event.connect :: es2 ∧
        Event.disconnect ∉ es2) := by
  constructor
  · rintro ⟨es1, es2, heq, hd⟩
    cases es1 with
    | nil =>
      rw [List.nil_append] at heq
      rw [(List.cons.inj heq).2]
      exact Or.inl hd
    | cons a es1 =>
      rw [List.cons_append] at heq
      exact Or.inr ⟨es1, es2, (List.cons.inj heq).2, hd⟩
  · rintro (hd | ⟨es1, es2, heq, hd⟩)
    · exact ⟨[], es, rfl, hd⟩
    · exact ⟨Event.connect :: es1, es2, by rw [heq, List.cons_append], hd⟩

theorem suffix_no_disconnect (es es1 es2 : List Event)
    (heq : es = es1 ++ Event.connect :: es2)
    (hd : Event.disconnect ∉ es) : Event.disconnect ∉ es2 := by
  intro hc
  apply hd
  rw [heq, List.mem_append]
  exact Or.inr (List.mem_cons_of_mem _ hc)

theorem other_iff (e : Event) (es : List Event) (b : Bool)
    (hne1 : e ≠ Event.connect) (hne2 : e ≠ Event.disconnect) :
    ((∃ es1 es2, es = es1 ++ Event.connect :: es2 ∧
        Event.disconnect ∉ es2) ∨
      (b = true ∧ Event.connect ∉ es ∧ Event.disconnect ∉ es)) ↔
    ((∃ es1 es2, e :: es = es1 ++ Event.connect :: es2 ∧
        Event.disconnect ∉ es2) ∨
      (b = true ∧ Event.connect ∉ e :: es ∧
        Event.disconnect ∉ e :: es)) := by
  have h1 : Event.connect ∈ e :: es ↔ Event.connect ∈ es := by
    rw [List.mem_cons]
    constructor
    · rintro (hc | hc)
      · exact absurd hc.symm hne1
      · exact hc
    · exact Or.inr
  have h2 : Event.disconnect ∈ e :: es ↔ Event.disconnect ∈ es := by
    rw [List.mem_cons]
    constructor
    · rintro (hc | hc)
      · exact absurd hc.symm hne2
      · exact hc
    · exact Or.inr
  rw [split_cons_of_ne e es hne1]
  constructor
  · rintro (hsplit | ⟨hb, hcn, hdn⟩)
    · exact Or.inl hsplit
    · exact Or.inr ⟨hb, fun hc => hcn (h1.mp hc), fun hc => hdn (h2.mp hc)⟩
  · rintro (hsplit | ⟨hb, hcn, hdn⟩)
    · exact Or.inl hsplit
    · exact Or.inr ⟨hb, fun hc => hcn (h1.mpr hc), fun hc => hdn (h2.mpr hc)⟩

theorem run_isConnected_char (es : List Event) : ∀ (s : ChannelState),
    (run s es).isConnected = true ↔
      ((∃ es1 es2, es = es1 ++ Event.connect :: es2 ∧
          Event.disconnect ∉ es2) ∨
       (s.isConnected = true ∧ Event.connect ∉ es ∧
          Event.disconnect ∉ es)) := by
  induction es with
  | nil =>
    intro s
    simp [run, runTrace]
  | cons e es ih =>
    intro s
    rw [run_cons, ih]
    cases e with
    | connect =>
      have hstep : (step s Event.connect).1.isConnected = true := rfl
      rw [hstep, split_cons_connect]
      constructor
      · rintro (hsplit | ⟨-, hcn, hdn⟩)
        · exact Or.inl (Or.inr hsplit)
        · exact Or.inl (Or.inl hdn)
      · rintro ((hd | hsplit) | ⟨-, hcn, -⟩)
        · by_cases hc : Event.connect ∈ es
          · obtain ⟨l1, l2, hl⟩ := List.append_of_mem hc
            exact Or.inl ⟨l1, l2, hl, suffix_no_disconnect es l1 l2 hl hd⟩
          · exact Or.inr ⟨rfl, hc, hd⟩
        · exact Or.inl hsplit
        · exact absurd (List.mem_cons_self Event.connect es) hcn
    | disconnect =>
      have hstep : (step s Event.disconnect).1.isConnected = false := rfl
      rw [hstep, split_cons_of_ne Event.disconnect es
        (fun hc => Event.noConfusion hc)]
      constructor
      · rintro (hsplit | ⟨hfalse, -, -⟩)
        · exact Or.inl hsplit
        · exact absurd hfalse (by decide)
      · rintro (hsplit | ⟨-, -, hdn⟩)
        · exact Or.inl hsplit
        · exact absurd (List.mem_cons_self Event.disconnect es) hdn
    | receiveMessage m =>
      have hstep : (step s (Event.receiveMessage m)).1.isConnected
          = s.isConnected := rfl
      rw [hstep]
      exact other_iff _ es s.isConnected (fun hc => Event.noConfusion hc)
        (fun hc => Event.noConfusion hc)
    | sendMessage f t c =>
      have hstep : (step s (Event.sendMessage f t c)).1.isConnected
          = s.isConnected := by
        by_cases h : jsTrim c = "" <;> simp [step, sendMessage, h]
      rw [hstep]
      exact other_iff _ es s.isConnected (fun hc => Event.noConfusion hc)
        (fun hc => Event.noConfusion hc)
    | joinConversation cid =>
      have hstep : (step s (Event.joinConversation cid)).1.isConnected
          = s.isConnected := rfl
      rw [hstep]
      exact other_iff _ es s.isConnected (fun hc => Event.noConfusion hc)
        (fun hc => Event.noConfusion hc)
    | leaveConversation cid =>
      have hstep : (step s (Event.leaveConversation cid)).1.isConnected
          = s.isConnected := rfl
      rw [hstep]
      exact other_iff _ es s.isConnected (fun hc => Event.noConfusion hc)
        (fun hc => Event.noConfusion hc)
    | setOnMessageCallback cb =>
      have hstep : (step s (Event.setOnMessageCallback cb)).1.isConnected
          = s.isConnected := rfl
      rw [hstep]
      exact other_iff _ es s.isConnected (fun hc => Event.noConfusion hc)
        (fun hc => Event.noConfusion hc)

/-- C5: the connection flag is true after a sequence of events exactly when
the sequence ends strictly inside a connect–disconnect interval (it has a
connect event with no disconnect after it), and false otherwise, including
in the initial state; each connect sets it true, each disconnect sets it
false, and no other operation changes it. -/
theorem connected_iff_between (es : List Event) (s : ChannelState) :
    ((runEvents es).isConnected = true ↔
      (∃ es1 es2, es = es1 ++ Event.connect :: es2 ∧
        Event.disconnect ∉ es2)) ∧
    (step s Event.connect).1.isConnected = true ∧
    (step s Event.disconnect).1.isConnected = false ∧
    (∀ m, (step s (Event.receiveMessage m)).1.isConnected
        = s.isConnected) ∧
    (∀ f t c, (step s (Event.sendMessage f t c)).1.isConnected
        = s.isConnected) ∧
    (∀ cid, (step s (Event.joinConversation cid)).1.isConnected
        = s.isConnected) ∧
    (∀ cid, (step s (Event.leaveConversation cid)).1.isConnected
        = s.isConnected) ∧
    (∀ cb, (step s (Event.setOnMessageCallback cb)).1.isConnected
        = s.isConnected) := by
  refine ⟨?_, rfl, rfl, fun m => rfl, fun f t c => ?_, fun cid => rfl,
    fun cid => rfl, fun cb => rfl⟩
  · have h := run_isConnected_char es initState
    have hinit : initState.isConnected = false := rfl
    have hrw : runEvents es = run initState es := rfl
    rw [hrw, h, hinit]
    simp
  · by_cases h : jsTrim c = "" <;> simp [step, sendMessage, h]

/-- C5 witness: after a connect event the flag is true, as placed by the
characterization at the one-event sequence. -/
theorem connected_iff_between_witness :
    (runEvents [Event.connect]).isConnected = true :=
  ((connected_iff_between [Event.connect] initState).1).mpr
    ⟨[], [], rfl, List.not_mem_nil Event.disconnect⟩
